import Mathlib

/-! mysort: serial, multi-process and multi-thread integer sort

A shallow embedding of `src/mysort.cc` and the properties of its sorting
engine: the exchange sort run on each shard (`bubble_sort`), the two-pointer
merge (`merge_vects`), the round-robin partitioner (`create_vectors`) and the
coordinators that fold the sorted shards (`exec_process_sort`,
`exec_thread_sort`), together with the serial path (`exec_normal_sort`).

Modelling conventions

* A `vector<long>` is a `List Int`.  `long` values are only copied and
  compared, never computed with, so a statement about all `Int` lists covers
  all vectors of signed 64-bit values.
* `vector::size()` is `List.length`; a difference of sizes is taken in `size_t`
  arithmetic and wraps around modulo `2^64` (`size_sub`).
* Every loop counter compared with a size is a C `int` that starts at `0` and
  is only incremented.  It is a `Nat` here, its conversion to `size_t` in the
  comparison is the identity, and incrementing it past `INT_MAX` is signed
  overflow, reported as `Fault.int_overflow`.
* `vector::operator[]` is unchecked; an access outside the vector is reported
  as `Fault.out_of_bounds`.
* A run is an `Except Fault _`: either it completes with a result or it leaves
  defined behaviour.  Every loop is a total function: it ends or faults.
* A pipe is the list of values written to it, read back in the same order;
  `pipe`, `fork`, `pthread_create`, `read`, `write` and `fopen` are taken to
  succeed.  A file is the list of values `strtol` returns for its lines.  A
  worker that faults makes the run fault.
* Standard output is the list of items written to it (`Out`).
-/

/-- Largest value of a C `int`. -/
def INT_MAX : Nat := 2147483647

/-- Number of values of `size_t`: sizes are computed modulo `2^64`. -/
def SIZE_MOD : Nat := 18446744073709551616

/-- Ways in which a run leaves defined behaviour. -/
inductive Fault where
  | out_of_bounds
  | int_overflow
  | div_by_zero
  deriving DecidableEq

/-- One write to standard output: `printf(s)` or `cout << v << endl`. -/
inductive Out where
  | text (s : String)
  | value (v : Int)
  deriving DecidableEq

/-- Subtraction `a - b` of two `size_t` values (`a, b < 2^64`), which wraps around. -/
def size_sub (a b : Nat) : Nat := if b ≤ a then a - b else a + SIZE_MOD - b

/-- The effect of `swap(arr[a], arr[b])` when `x = arr[a]` and `y = arr[b]`. -/
def swap_at (arr : List Int) (a b : Nat) (x y : Int) : List Int :=
  (arr.set a y).set b x

/-- Inner loop of `bubble_sort` (lines 44-48), entered with counter `i`:
`for (int i = 0; i < arr.size() - j - 1; i++) if (arr[i] > arr[i+1]) swap(arr[i], arr[i+1]);` -/
def bubble_inner (j : Nat) (arr : List Int) (i : Nat) : Except Fault (List Int) :=
  if i < size_sub (size_sub arr.length j) 1 then
    match arr[i]? with
    | none => .error .out_of_bounds
    | some x =>
      if i + 1 ≤ INT_MAX then
        match arr[i + 1]? with
        | none => .error .out_of_bounds
        | some y =>
          if x > y then bubble_inner j (swap_at arr i (i + 1) x y) (i + 1)
          else bubble_inner j arr (i + 1)
      else .error .int_overflow
  else .ok arr
termination_by INT_MAX - i

/-- Outer loop of `bubble_sort` (lines 43-49), entered with counter `j`:
`for (int j = 0; j < arr.size() - 1; j++) { inner loop }`. -/
def bubble_outer (arr : List Int) (j : Nat) : Except Fault (List Int) :=
  if j < size_sub arr.length 1 then
    match bubble_inner j arr 0 with
    | .error e => .error e
    | .ok arr' =>
      if j + 1 ≤ INT_MAX then bubble_outer arr' (j + 1) else .error .int_overflow
  else .ok arr
termination_by INT_MAX - j

/-- The function `bubble_sort` (lines 42-50); the result is the vector after the call. -/
def bubble_sort (arr : List Int) : Except Fault (List Int) :=
  bubble_outer arr 0

/-- A loop that walks an `int` index `i` to the end of `v` and hands `v[i]` on,
appending it to `out`: the tail loops of `merge_vects`
(`while (p < v.size()) combined.push_back(v[p++]);`, lines 76-82), the loops
writing a vector to a pipe (lines 176-178, 189-191, 251-253, 293-295) and the
loops printing the result (lines 127-129, 221-223, 323-325). -/
def copy_loop (v : List Int) (i : Nat) (out : List Int) : Except Fault (List Int) :=
  if h : i < v.length then
    if i + 1 ≤ INT_MAX then copy_loop v (i + 1) (out ++ [v[i]])
    else .error .int_overflow
  else .ok out
termination_by INT_MAX - i

/-- First loop of `merge_vects` (lines 66-74); returns both pointers and the
vector built so far. -/
def merge_both (vector_one vector_two : List Int) (one_ptr two_ptr : Nat)
    (combined_vector : List Int) : Except Fault (Nat × Nat × List Int) :=
  if h : one_ptr < vector_one.length ∧ two_ptr < vector_two.length then
    if vector_one[one_ptr] < vector_two[two_ptr] then
      if one_ptr + 1 ≤ INT_MAX then
        merge_both vector_one vector_two (one_ptr + 1) two_ptr
          (combined_vector ++ [vector_one[one_ptr]])
      else .error .int_overflow
    else
      if two_ptr + 1 ≤ INT_MAX then
        merge_both vector_one vector_two one_ptr (two_ptr + 1)
          (combined_vector ++ [vector_two[two_ptr]])
      else .error .int_overflow
  else .ok (one_ptr, two_ptr, combined_vector)
termination_by (INT_MAX - one_ptr) + (INT_MAX - two_ptr)

/-- The three loops of `merge_vects` run from given pointers and a given
partial result. -/
def merge_from (vector_one vector_two : List Int) (one_ptr two_ptr : Nat)
    (combined_vector : List Int) : Except Fault (List Int) :=
  match merge_both vector_one vector_two one_ptr two_ptr combined_vector with
  | .error e => .error e
  | .ok (p1, p2, c) =>
    match copy_loop vector_one p1 c with
    | .error e => .error e
    | .ok c1 => copy_loop vector_two p2 c1

/-- The function `merge_vects` (lines 59-85). -/
def merge_vects (vector_one vector_two : List Int) : Except Fault (List Int) :=
  merge_from vector_one vector_two 0 0 []

/-- The notice both guards print when no file name was given (lines 95, 338). -/
def NO_FILES_MSG : String := "No valid file names entered"

/-- Reading loop over one open file (lines 115-118): every line's value is
pushed on the back of `nums`. -/
def read_file (nums : List Int) (lines : List Int) : List Int :=
  lines.foldl (fun acc read_num => acc ++ [read_num]) nums

/-- Loop over the files (lines 102-121).  Its counter is bounded by `argc`,
an `int`, and cannot overflow. -/
def read_files (file_names : List (List Int)) (nums : List Int) : List Int :=
  file_names.foldl read_file nums

/-- The printing loop `for (int i = 0; i < nums.size(); i++) cout << nums[i] << endl;`. -/
def print_all (nums : List Int) : Except Fault (List Out) :=
  match copy_loop nums 0 [] with
  | .error e => .error e
  | .ok printed => .ok (printed.map Out.value)

/-- The function `exec_normal_sort` (lines 92-130); the result is what it
writes to standard output. -/
def exec_normal_sort (file_names : List (List Int)) : Except Fault (List Out) :=
  if file_names.length = 0 then .ok [Out.text NO_FILES_MSG]
  else
    match bubble_sort (read_files file_names []) with
    | .error e => .error e
    | .ok nums => print_all nums

/-- The child branch of `exec_process_sort` (lines 160-182): read the parent's
pipe to the end, sort, write the values back.  The result is the content of
the child's pipe. -/
def child_process (parent_send_pipe : List Int) : Except Fault (List Int) :=
  match bubble_sort parent_send_pipe with
  | .error e => .error e
  | .ok to_sort => copy_loop to_sort 0 []

/-- The function `thread_sorter` (lines 233-259); the result is the content of
the thread's `child_send_pipe`. -/
def thread_sorter (parent_send_pipe : List Int) : Except Fault (List Int) :=
  match bubble_sort parent_send_pipe with
  | .error e => .error e
  | .ok read_nums => copy_loop read_nums 0 []

/-- First loop of `exec_process_sort` (lines 147-199), entered with counter `i`:
the parent writes `vects[i]` to the child's pipe and the child answers on
`child_send_pipe[i]`.  A fault of a child counts as a fault of the run. -/
def process_spawn (num_children : Nat) (vects : List (List Int)) (i : Nat)
    (child_send_pipe : List (List Int)) : Except Fault (List (List Int)) :=
  if i < num_children then
    match vects[i]? with
    | none => .error .out_of_bounds
    | some shard =>
      match copy_loop shard 0 [] with
      | .error e => .error e
      | .ok sent =>
        match child_process sent with
        | .error e => .error e
        | .ok back => process_spawn num_children vects (i + 1) (child_send_pipe ++ [back])
  else .ok child_send_pipe
termination_by num_children - i

/-- First loop of `exec_thread_sort` (lines 275-299), entered with counter `i`. -/
def thread_spawn (num_threads : Nat) (vects : List (List Int)) (i : Nat)
    (thread_pipes : List (List Int)) : Except Fault (List (List Int)) :=
  if i < num_threads then
    match vects[i]? with
    | none => .error .out_of_bounds
    | some shard =>
      match copy_loop shard 0 [] with
      | .error e => .error e
      | .ok sent =>
        match thread_sorter sent with
        | .error e => .error e
        | .ok back => thread_spawn num_threads vects (i + 1) (thread_pipes ++ [back])
  else .ok thread_pipes
termination_by num_threads - i

/-- The collecting loop of the coordinator (lines 203-215 and 303-315), entered
with counter `i`: `all_nums = merge_vects(all_nums, read_nums)` for the content
`read_nums` of pipe `i`. -/
def collect (num_children : Nat) (pipes : List (List Int)) (i : Nat)
    (all_nums : List Int) : Except Fault (List Int) :=
  if i < num_children then
    match pipes[i]? with
    | none => .error .out_of_bounds
    | some read_nums =>
      match merge_vects all_nums read_nums with
      | .error e => .error e
      | .ok merged => collect num_children pipes (i + 1) merged
  else .ok all_nums
termination_by num_children - i

/-- The function `exec_process_sort` (lines 140-224); the result is what it
writes to standard output. -/
def exec_process_sort (num_children : Nat) (vects : List (List Int)) :
    Except Fault (List Out) :=
  match process_spawn num_children vects 0 [] with
  | .error e => .error e
  | .ok child_send_pipe =>
    match collect num_children child_send_pipe 0 [] with
    | .error e => .error e
    | .ok all_nums => print_all all_nums

/-- The function `exec_thread_sort` (lines 268-326). -/
def exec_thread_sort (num_threads : Nat) (vects : List (List Int)) :
    Except Fault (List Out) :=
  match thread_spawn num_threads vects 0 [] with
  | .error e => .error e
  | .ok thread_pipes =>
    match collect num_threads thread_pipes 0 [] with
    | .error e => .error e
    | .ok all_nums => print_all all_nums

/-- The loop `for (int i = 0; i < num_concurrency; i++) partitioned_nums.push_back(thread_vector);`
(lines 343-346), with `todo` iterations left. -/
def push_empty : Nat → List (List Int) → List (List Int)
  | 0, partitioned_nums => partitioned_nums
  | todo + 1, partitioned_nums => push_empty todo (partitioned_nums ++ [[]])

/-- Body of the reading loop of `create_vectors` (lines 366-368):
`partitioned_nums[cur_vector % num_concurrency].push_back(read_num); cur_vector++;`.
`cur_vector` is a `long` that counts values held in memory and stays far below `2^63`. -/
def push_line (num_concurrency : Nat) (partitioned_nums : List (List Int))
    (cur_vector : Nat) (read_num : Int) : Except Fault (List (List Int) × Nat) :=
  if num_concurrency = 0 then .error .div_by_zero
  else
    match partitioned_nums[cur_vector % num_concurrency]? with
    | none => .error .out_of_bounds
    | some shard =>
      .ok (partitioned_nums.set (cur_vector % num_concurrency) (shard ++ [read_num]),
        cur_vector + 1)

/-- Reading loop of `create_vectors` over the lines of one file (lines 365-369). -/
def deal_file (num_concurrency : Nat) :
    List Int → List (List Int) → Nat → Except Fault (List (List Int) × Nat)
  | [], partitioned_nums, cur_vector => .ok (partitioned_nums, cur_vector)
  | read_num :: rest, partitioned_nums, cur_vector =>
    match push_line num_concurrency partitioned_nums cur_vector read_num with
    | .error e => .error e
    | .ok (p, k) => deal_file num_concurrency rest p k

/-- Loop of `create_vectors` over the files (lines 352-372). -/
def deal_files (num_concurrency : Nat) :
    List (List Int) → List (List Int) → Nat → Except Fault (List (List Int) × Nat)
  | [], partitioned_nums, cur_vector => .ok (partitioned_nums, cur_vector)
  | file :: rest, partitioned_nums, cur_vector =>
    match deal_file num_concurrency file partitioned_nums cur_vector with
    | .error e => .error e
    | .ok (p, k) => deal_files num_concurrency rest p k

/-- The function `create_vectors` (lines 336-373): the result is what it writes
to standard output and the value of `partitioned_nums` after the call. -/
def create_vectors (file_names : List (List Int)) (partitioned_nums : List (List Int))
    (num_concurrency : Nat) : Except Fault (List Out × List (List Int)) :=
  if file_names.length = 0 then .ok ([Out.text NO_FILES_MSG], partitioned_nums)
  else
    match deal_files num_concurrency file_names
        (push_empty num_concurrency partitioned_nums) 0 with
    | .error e => .error e
    | .ok (p, _) => .ok ([], p)

/-- The function `main` after option parsing (lines 420-437): `use_threads` is
the flag `-t`, `num_concurrency` the non-negative worker count, `file_names`
the files named on the command line.  The result is the run's standard output. -/
def mysort (use_threads : Bool) (num_concurrency : Nat) (file_names : List (List Int)) :
    Except Fault (List Out) :=
  if num_concurrency ≤ 1 then exec_normal_sort file_names
  else
    match create_vectors file_names [] num_concurrency with
    | .error e => .error e
    | .ok (out1, nums) =>
      match (if use_threads then exec_thread_sort num_concurrency nums
             else exec_process_sort num_concurrency nums) with
      | .error e => .error e
      | .ok out2 => .ok (out1 ++ out2)

/-! ## Definitions used to state and prove the properties -/

/-- One pass of adjacent exchanges over `a :: t`, carrying the larger value along. -/
def bubble_pass (a : Int) : List Int → List Int
  | [] => [a]
  | b :: t => if a > b then b :: bubble_pass a t else a :: bubble_pass b t

/-- The state of the partitioner after the values `done` have been dealt to
`N` shards: shard `i` holds the values of index `i`, `i + N`, `i + 2N`, ... -/
def Dealt (N : Nat) (done : List Int) (parts : List (List Int)) : Prop :=
  parts.length = N ∧ parts.flatten.Perm done ∧
  ∀ i, i < N → ∃ shard, parts[i]? = some shard ∧
    shard.length = done.length / N + (if i < done.length % N then 1 else 0) ∧
    ∀ j, j < shard.length → j * N + i < done.length ∧ shard[j]? = done[j * N + i]?

theorem size_sub_of_le {a b : Nat} (h : b ≤ a) : size_sub a b = a - b := by
  simp [size_sub, h]

theorem getElem?_mid (pre : List Int) (a : Int) (rest : List Int) :
    (pre ++ a :: rest)[pre.length]? = some a := by
  rw [List.getElem?_append_right (le_refl _)]
  simp

theorem getElem?_mid_succ (pre : List Int) (a b : Int) (rest : List Int) :
    (pre ++ a :: b :: rest)[pre.length + 1]? = some b := by
  rw [List.getElem?_append_right (by omega)]
  simp

theorem swap_at_mid (pre : List Int) (a b : Int) (rest : List Int) :
    swap_at (pre ++ a :: b :: rest) pre.length (pre.length + 1) a b = pre ++ b :: a :: rest := by
  unfold swap_at
  rw [List.set_append_right _ _ (le_refl _), Nat.sub_self, List.set_cons_zero,
    List.set_append_right _ _ (by omega)]
  simp

/-- The inner loop entered at position `|pre|` of `pre ++ a :: t ++ suf`, with `|suf| = j`,
ends and performs one pass of adjacent exchanges over `a :: t`. -/
theorem bubble_inner_pass (j : Nat) (suf : List Int) (hj : suf.length = j) :
    ∀ (t pre : List Int) (a : Int),
      (pre ++ a :: (t ++ suf)).length ≤ INT_MAX + 1 →
      bubble_inner j (pre ++ a :: (t ++ suf)) pre.length = .ok (pre ++ (bubble_pass a t ++ suf)) := by
  intro t
  induction t with
  | nil =>
    intro pre a hlen
    rw [bubble_inner]
    have hl : (pre ++ a :: ([] ++ suf)).length = pre.length + 1 + j := by
      simp [hj]; omega
    have h1 : size_sub (size_sub (pre ++ a :: ([] ++ suf)).length j) 1 = pre.length := by
      rw [hl, size_sub_of_le (show j ≤ pre.length + 1 + j by omega),
        size_sub_of_le (show 1 ≤ pre.length + 1 + j - j by omega)]
      omega
    rw [h1]
    simp [bubble_pass]
  | cons b t ih =>
    intro pre a hlen
    rw [bubble_inner]
    have hl : (pre ++ a :: (b :: t ++ suf)).length = pre.length + 1 + (t.length + 1) + j := by
      simp [hj]; omega
    have h1 : size_sub (size_sub (pre ++ a :: (b :: t ++ suf)).length j) 1
        = pre.length + 1 + t.length := by
      rw [hl, size_sub_of_le (show j ≤ pre.length + 1 + (t.length + 1) + j by omega),
        size_sub_of_le (show 1 ≤ pre.length + 1 + (t.length + 1) + j - j by omega)]
      omega
    have h2 : pre.length + 1 ≤ INT_MAX := by
      rw [hl] at hlen; omega
    rw [h1, if_pos (by omega)]
    simp only [List.cons_append, getElem?_mid, getElem?_mid_succ, if_pos h2]
    have ih1 := ih (pre ++ [b]) a (by simpa using hlen)
    have ih2 := ih (pre ++ [a]) b (by simpa using hlen)
    simp only [List.length_append, List.length_singleton, List.append_assoc,
      List.singleton_append] at ih1 ih2
    by_cases hab : a > b
    · rw [if_pos hab, swap_at_mid, ih1]
      simp [bubble_pass, hab]
    · rw [if_neg hab, ih2]
      simp [bubble_pass, hab]

/-! ## The shard sorter: the outer loop sorts -/

theorem bubble_pass_perm : ∀ (t : List Int) (a : Int), (bubble_pass a t).Perm (a :: t) := by
  intro t
  induction t with
  | nil => intro a; exact List.Perm.refl _
  | cons b t ih =>
    intro a
    by_cases hab : a > b
    · simp only [bubble_pass, if_pos hab]
      exact ((ih a).cons b).trans (List.Perm.swap a b t)
    · simp only [bubble_pass, if_neg hab]
      exact (ih b).cons a

theorem bubble_pass_last : ∀ (t : List Int) (a : Int),
    ∃ init m, bubble_pass a t = init ++ [m] ∧ init.length = t.length ∧ a ≤ m ∧
      ∀ x ∈ init, x ≤ m := by
  intro t
  induction t with
  | nil => intro a; exact ⟨[], a, rfl, rfl, le_refl _, by simp⟩
  | cons b t ih =>
    intro a
    by_cases hab : a > b
    · obtain ⟨init, m, h1, h2, h3, h4⟩ := ih a
      refine ⟨b :: init, m, ?_, by simp [h2], h3, ?_⟩
      · simp [bubble_pass, hab, h1]
      · intro x hx
        rcases List.mem_cons.1 hx with rfl | hx
        · omega
        · exact h4 x hx
    · obtain ⟨init, m, h1, h2, h3, h4⟩ := ih b
      refine ⟨a :: init, m, ?_, by simp [h2], by omega, ?_⟩
      · simp [bubble_pass, hab, h1]
      · intro x hx
        rcases List.mem_cons.1 hx with rfl | hx
        · omega
        · exact h4 x hx

/-- The outer loop entered with `j` values already in place (`suf`, sorted and above the
rest) ends with a sorted permutation of the vector. -/
theorem bubble_outer_sorts : ∀ (n : Nat) (un suf : List Int) (j : Nat),
    un.length = n + 1 → suf.length = j → (un ++ suf).length ≤ INT_MAX + 1 →
    suf.Sorted (· ≤ ·) → (∀ x ∈ un, ∀ y ∈ suf, x ≤ y) →
    ∃ out, bubble_outer (un ++ suf) j = .ok out ∧ out.Sorted (· ≤ ·) ∧ out.Perm (un ++ suf) := by
  intro n
  induction n with
  | zero =>
    intro un suf j hun hsuf hlen hs hle
    match un, hun with
    | [x], _ =>
      refine ⟨[x] ++ suf, ?_, ?_, List.Perm.refl _⟩
      · rw [bubble_outer]
        have hl : ([x] ++ suf).length = j + 1 := by simp [hsuf]
        rw [hl, size_sub_of_le (show 1 ≤ j + 1 by omega), if_neg (by omega)]
      · simp only [List.singleton_append, List.Sorted, List.pairwise_cons]
        exact ⟨fun y hy => hle x (by simp) y hy, hs⟩
  | succ n ih =>
    intro un suf j hun hsuf hlen hs hle
    match un, hun with
    | a :: t, hun =>
      have ht : t.length = n + 1 := by simpa using hun
      have hl : (a :: t ++ suf).length = n + 2 + j := by simp [hsuf, ht]; omega
      obtain ⟨init, m, h1, h2, h3, h4⟩ := bubble_pass_last t a
      have hp := bubble_pass_perm t a
      have hinner := bubble_inner_pass j suf hsuf t [] a (by simpa using hlen)
      simp only [List.nil_append, List.length_nil] at hinner
      have hj1 : j + 1 ≤ INT_MAX := by rw [hl] at hlen; omega
      have hmem : ∀ x ∈ init ++ [m], x ∈ a :: t := by
        intro x hx; rw [← h1] at hx; exact hp.mem_iff.1 hx
      have hrec := ih init (m :: suf) (j + 1) (by omega) (by simp [hsuf])
        (by
          have : (init ++ m :: suf).length = n + 2 + j := by simp [h2, ht, hsuf]; omega
          rw [this]; rw [hl] at hlen; exact hlen)
        (by
          simp only [List.Sorted, List.pairwise_cons]
          exact ⟨fun y hy => hle m (hmem m (by simp)) y hy, hs⟩)
        (by
          intro x hx y hy
          rcases List.mem_cons.1 hy with rfl | hy
          · exact h4 x hx
          · exact hle x (hmem x (by simp [hx])) y hy)
      obtain ⟨out, ho1, ho2, ho3⟩ := hrec
      refine ⟨out, ?_, ho2, ?_⟩
      · rw [bubble_outer, hl, size_sub_of_le (show 1 ≤ n + 2 + j by omega),
          if_pos (by omega)]
        simp only [List.cons_append, hinner, if_pos hj1, h1, List.append_assoc,
          List.singleton_append, List.nil_append, ho1]
      · refine ho3.trans ?_
        have : init ++ m :: suf = bubble_pass a t ++ suf := by rw [h1]; simp
        rw [this]
        exact hp.append_right suf

/-- On `1` to `2^31` values `bubble_sort` ends with a sorted permutation. -/
theorem bubble_sort_sorts (arr : List Int) (h1 : 1 ≤ arr.length)
    (h2 : arr.length ≤ INT_MAX + 1) :
    ∃ out, bubble_sort arr = .ok out ∧ out.Sorted (· ≤ ·) ∧ out.Perm arr := by
  have h := bubble_outer_sorts (arr.length - 1) arr [] 0 (by omega) rfl (by simpa using h2)
    (by simp) (by simp)
  simpa [bubble_sort] using h

/-! ## Faults of the shard sorter and the copying loop -/

theorem swap_at_length (arr : List Int) (a b : Nat) (x y : Int) :
    (swap_at arr a b x y).length = arr.length := by
  simp [swap_at]

/-- On the empty vector `bubble_sort` reads `arr[0]`. -/
theorem bubble_sort_nil : bubble_sort [] = .error .out_of_bounds := by
  rw [bubble_sort, bubble_outer, bubble_inner]
  simp [size_sub, SIZE_MOD]

/-- On more than `2^31` values the first pass of the inner loop drives `i` to `INT_MAX`
and then computes `i + 1`. -/
theorem bubble_inner_overflow : ∀ (d i : Nat) (arr : List Int),
    INT_MAX - i = d → i ≤ INT_MAX → INT_MAX + 1 < arr.length →
    bubble_inner 0 arr i = .error .int_overflow := by
  intro d
  induction d with
  | zero =>
    intro i arr hd hi hlen
    have hi' : i = INT_MAX := by omega
    rw [bubble_inner, size_sub_of_le (Nat.zero_le _),
      size_sub_of_le (show 1 ≤ arr.length - 0 by omega), if_pos (by omega)]
    have hb : i < arr.length := by omega
    have hx : arr[i]? = some arr[i] := List.getElem?_eq_getElem hb
    rw [hx]
    simp only []
    rw [if_neg (by omega)]
  | succ d ih =>
    intro i arr hd hi hlen
    rw [bubble_inner, size_sub_of_le (Nat.zero_le _),
      size_sub_of_le (show 1 ≤ arr.length - 0 by omega), if_pos (by omega)]
    have hb : i < arr.length := by omega
    have hc : i + 1 < arr.length := by omega
    have hx : arr[i]? = some arr[i] := List.getElem?_eq_getElem hb
    have hy : arr[i + 1]? = some arr[i + 1] := List.getElem?_eq_getElem hc
    rw [hx]
    simp only []
    rw [if_pos (by omega), hy]
    simp only []
    split
    · exact ih (i + 1) _ (by omega) (by omega) (by rw [swap_at_length]; exact hlen)
    · exact ih (i + 1) _ (by omega) (by omega) hlen

/-- On more than `2^31` values `bubble_sort` overflows its inner counter. -/
theorem bubble_sort_overflow (arr : List Int) (h : INT_MAX + 1 < arr.length) :
    bubble_sort arr = .error .int_overflow := by
  rw [bubble_sort, bubble_outer, size_sub_of_le (show 1 ≤ arr.length by omega),
    if_pos (by omega), bubble_inner_overflow INT_MAX 0 arr rfl (Nat.zero_le _) h]

theorem succ_div_mod_lt (N k : Nat) (h : k % N + 1 < N) :
    (k + 1) / N = k / N ∧ (k + 1) % N = k % N + 1 := by
  have hN : 0 < N := by omega
  have h1 := Nat.div_add_mod k N
  exact (Nat.div_mod_unique hN).2 ⟨by omega, h⟩

theorem succ_div_mod_eq (N k : Nat) (hN : 0 < N) (h : k % N + 1 = N) :
    (k + 1) / N = k / N + 1 ∧ (k + 1) % N = 0 := by
  have h1 := Nat.div_add_mod k N
  refine (Nat.div_mod_unique hN).2 ⟨?_, hN⟩
  rw [Nat.mul_add, Nat.mul_one]; omega

theorem ceil_div_eq (N L : Nat) (hN : 0 < N) (h : 0 < L % N) :
    (L + N - 1) / N = L / N + 1 := by
  have h1 := Nat.div_add_mod L N
  have h2 := Nat.mod_lt L hN
  have : (L + N - 1) / N = L / N + 1 ∧ (L + N - 1) % N = L % N - 1 := by
    refine (Nat.div_mod_unique hN).2 ⟨?_, by omega⟩
    rw [Nat.mul_add, Nat.mul_one]; omega
  exact this.1

theorem flatten_set_perm (v : Int) : ∀ (parts : List (List Int)) (r : Nat) (shard : List Int),
    parts[r]? = some shard → (parts.set r (shard ++ [v])).flatten.Perm (parts.flatten ++ [v])
  | [], r, shard, h => by simp at h
  | p :: ps, 0, shard, h => by
    simp only [List.getElem?_cons_zero, Option.some.injEq] at h
    subst h
    simp only [List.set_cons_zero, List.flatten_cons, List.append_assoc]
    exact List.Perm.append_left _ List.perm_append_comm
  | p :: ps, r + 1, shard, h => by
    simp only [List.getElem?_cons_succ] at h
    simp only [List.set_cons_succ, List.flatten_cons, List.append_assoc]
    exact List.Perm.append_left _ (flatten_set_perm v ps r shard h)

/-- Dealing one more value keeps the partitioner's invariant. -/
theorem push_line_dealt (N : Nat) (hN : 0 < N) (done : List Int) (parts : List (List Int))
    (v : Int) (hd : Dealt N done parts) :
    ∃ parts', push_line N parts done.length v = .ok (parts', (done ++ [v]).length) ∧
      Dealt N (done ++ [v]) parts' := by
  obtain ⟨hlen, hperm, hsh⟩ := hd
  have hr : done.length % N < N := Nat.mod_lt _ hN
  obtain ⟨shard, hs1, hs2, hs3⟩ := hsh _ hr
  have hdm := Nat.div_add_mod done.length N
  rw [if_neg (lt_irrefl _), Nat.add_zero] at hs2
  refine ⟨parts.set (done.length % N) (shard ++ [v]), ?_, ?_, ?_, ?_⟩
  · simp [push_line, Nat.pos_iff_ne_zero.1 hN, hs1]
  · simp [hlen]
  · exact (flatten_set_perm v parts _ shard hs1).trans (hperm.append_right _)
  · intro i hi
    have hl : (done ++ [v]).length = done.length + 1 := by simp
    rw [hl]
    by_cases hir : i = done.length % N
    · subst hir
      refine ⟨shard ++ [v], ?_, ?_, ?_⟩
      · rw [List.getElem?_set]; simp [hlen, hr]
      · rw [List.length_append, List.length_singleton, hs2]
        rcases Nat.lt_or_ge (done.length % N + 1) N with h | h
        · obtain ⟨e1, e2⟩ := succ_div_mod_lt N done.length h
          rw [e1, e2, if_pos (Nat.lt_succ_self _)]
        · obtain ⟨e1, e2⟩ := succ_div_mod_eq N done.length hN (by omega)
          rw [e1, e2, if_neg (Nat.not_lt_zero _)]
      · intro j hj
        rw [List.length_append, List.length_singleton] at hj
        rcases Nat.lt_or_ge j shard.length with h | h
        · obtain ⟨b1, b2⟩ := hs3 j h
          refine ⟨by omega, ?_⟩
          rw [List.getElem?_append_left h, List.getElem?_append_left b1, b2]
        · have hj' : j = shard.length := by omega
          have hidx : j * N + done.length % N = done.length := by
            rw [hj', hs2, Nat.mul_comm]; exact hdm
          rw [hidx]
          refine ⟨by omega, ?_⟩
          rw [hj', List.getElem?_append_right (le_refl _),
            List.getElem?_append_right (le_refl _)]
          simp
    · obtain ⟨sh, t1, t2, t3⟩ := hsh i hi
      refine ⟨sh, ?_, ?_, ?_⟩
      · rw [List.getElem?_set, if_neg (fun h => hir h.symm)]; exact t1
      · rw [t2]
        rcases Nat.lt_or_ge (done.length % N + 1) N with h | h
        · obtain ⟨e1, e2⟩ := succ_div_mod_lt N done.length h
          rw [e1, e2]
          by_cases c : i < done.length % N
          · rw [if_pos c, if_pos (by omega)]
          · rw [if_neg c, if_neg (by omega)]
        · obtain ⟨e1, e2⟩ := succ_div_mod_eq N done.length hN (by omega)
          rw [e1, e2, if_neg (Nat.not_lt_zero _), if_pos (by omega)]
      · intro j hj
        obtain ⟨b1, b2⟩ := t3 j hj
        refine ⟨by omega, ?_⟩
        rw [List.getElem?_append_left b1, b2]

theorem deal_file_dealt (N : Nat) (hN : 0 < N) : ∀ (lines done : List Int)
    (parts : List (List Int)), Dealt N done parts →
    ∃ parts', deal_file N lines parts done.length = .ok (parts', (done ++ lines).length) ∧
      Dealt N (done ++ lines) parts'
  | [], done, parts, hd => ⟨parts, by simp [deal_file], by simpa using hd⟩
  | v :: rest, done, parts, hd => by
    obtain ⟨p1, h1, h2⟩ := push_line_dealt N hN done parts v hd
    obtain ⟨p2, h3, h4⟩ := deal_file_dealt N hN rest (done ++ [v]) p1 h2
    refine ⟨p2, ?_, by simpa using h4⟩
    simp only [deal_file, h1, h3]
    simp

theorem deal_files_dealt (N : Nat) (hN : 0 < N) : ∀ (files : List (List Int)) (done : List Int)
    (parts : List (List Int)), Dealt N done parts →
    ∃ parts', deal_files N files parts done.length
        = .ok (parts', (done ++ files.flatten).length) ∧
      Dealt N (done ++ files.flatten) parts'
  | [], done, parts, hd => ⟨parts, by simp [deal_files], by simpa using hd⟩
  | f :: rest, done, parts, hd => by
    obtain ⟨p1, h1, h2⟩ := deal_file_dealt N hN f done parts hd
    obtain ⟨p2, h3, h4⟩ := deal_files_dealt N hN rest (done ++ f) p1 h2
    refine ⟨p2, ?_, by simpa using h4⟩
    simp only [deal_files, h1, h3]
    simp

theorem push_empty_eq : ∀ (n : Nat) (p : List (List Int)),
    push_empty n p = p ++ List.replicate n []
  | 0, p => by simp [push_empty]
  | n + 1, p => by
    rw [push_empty, push_empty_eq n, List.replicate_succ]
    simp

theorem dealt_start (N : Nat) : Dealt N [] (push_empty N []) := by
  rw [push_empty_eq]
  refine ⟨by simp, ?_, ?_⟩
  · have : (List.replicate N ([] : List Int)).flatten = [] := by
      induction N with
      | zero => rfl
      | succ n ih => simp [List.replicate_succ, ih]
    simp [this]
  · intro i hi
    refine ⟨[], ?_, by simp, by simp⟩
    simp [List.getElem?_replicate, hi]

/-- Given at least one file, `create_vectors` writes nothing and deals the flat sequence. -/
theorem create_vectors_dealt (files : List (List Int)) (N : Nat) (hN : 0 < N)
    (hf : files ≠ []) :
    ∃ shards, create_vectors files [] N = .ok ([], shards) ∧ Dealt N files.flatten shards := by
  obtain ⟨p, h1, h2⟩ := deal_files_dealt N hN files [] _ (dealt_start N)
  refine ⟨p, ?_, by simpa using h2⟩
  have hl : files.length ≠ 0 := by
    intro h; exact hf (List.length_eq_zero.1 h)
  simp only [List.length_nil] at h1
  simp [create_vectors, hl, h1]

/-! ## Workers and the spawning loop -/

theorem thread_sorter_eq (s : List Int) : thread_sorter s = child_process s := rfl

theorem thread_spawn_eq (N : Nat) (vects : List (List Int)) : ∀ (d i : Nat)
    (acc : List (List Int)), N - i = d →
    thread_spawn N vects i acc = process_spawn N vects i acc := by
  intro d
  induction d with
  | zero =>
    intro i acc hd
    rw [thread_spawn, process_spawn, if_neg (by omega), if_neg (by omega)]
  | succ d ih =>
    intro i acc hd
    rw [thread_spawn, process_spawn, if_pos (by omega), if_pos (by omega)]
    cases vects[i]? with
    | none => rfl
    | some shard =>
      simp only []
      cases copy_loop shard 0 [] with
      | error e => rfl
      | ok sent =>
        simp only [thread_sorter_eq]
        cases child_process sent with
        | error e => rfl
        | ok back => exact ih (i + 1) _ (by omega)

/-- Both coordinators compute the same output. -/
theorem exec_thread_sort_eq (N : Nat) (vects : List (List Int)) :
    exec_thread_sort N vects = exec_process_sort N vects := by
  simp [exec_thread_sort, exec_process_sort, thread_spawn_eq N vects _ 0 [] rfl]

/-- C4 at its failing input: on the empty vector the bound `arr.size() - 1`
wraps around to `2^64 - 1`, both loops are entered, and the first comparison
reads `arr[0]` outside the vector; `bubble_sort` does not run to completion. -/
theorem bubble_sort_empty_faults :
    size_sub ([] : List Int).length 1 = 18446744073709551615 ∧
    bubble_sort [] = .error .out_of_bounds :=
  ⟨by simp [size_sub, SIZE_MOD], bubble_sort_nil⟩

/-- C5 (as amended): on every vector of at least `1` and at most `2^31` values
`bubble_sort` runs to completion, and the vector it leaves is non-decreasing
and a permutation of the vector it was given, of the same length. -/
theorem bubble_sort_contract (arr : List Int) (h1 : 1 ≤ arr.length)
    (h2 : arr.length ≤ INT_MAX + 1) :
    ∃ out, bubble_sort arr = .ok out ∧ out.Sorted (· ≤ ·) ∧ out.Perm arr ∧
      (out : Multiset Int) = (arr : Multiset Int) ∧ out.length = arr.length := by
  obtain ⟨out, e, hs, hp⟩ := bubble_sort_sorts arr h1 h2
  exact ⟨out, e, hs, hp, Multiset.coe_eq_coe.2 hp, hp.length_eq⟩

/-- C5 on the shard `3, 1, 2`. -/
theorem bubble_sort_contract_witness :
    1 ≤ [(3 : Int), 1, 2].length ∧ [(3 : Int), 1, 2].length ≤ INT_MAX + 1 ∧
    ∃ out, bubble_sort [3, 1, 2] = .ok out ∧ out.Sorted (· ≤ ·) ∧ out.Perm [3, 1, 2] ∧
      (out : Multiset Int) = ([(3 : Int), 1, 2] : Multiset Int) ∧
      out.length = [(3 : Int), 1, 2].length :=
  ⟨by decide, by decide, bubble_sort_contract [3, 1, 2] (by decide) (by decide)⟩

/-- C5 fails as stated: on a vector of `2^31 + 1` values the `int` counter of
the inner loop overflows in the first pass, so no sorted vector is left. -/
theorem bubble_sort_contract_counterexample :
    1 ≤ (List.replicate 2147483649 (0 : Int)).length ∧
    ¬ ∃ out, bubble_sort (List.replicate 2147483649 (0 : Int)) = .ok out ∧
      out.Sorted (· ≤ ·) ∧ out.Perm (List.replicate 2147483649 (0 : Int)) := by
  have hl : (List.replicate 2147483649 (0 : Int)).length = 2147483649 :=
    List.length_replicate _ _
  refine ⟨by rw [hl]; decide, ?_⟩
  rw [bubble_sort_overflow _ (by rw [hl]; decide)]
  rintro ⟨out, h, _⟩
  cases h

/-- C8 (as amended): for every non-empty list of files with flat sequence `F`
of length `L` and every shard count `N ≥ 1`, `create_vectors` writes nothing
and produces exactly `N` shards; shard `i` has length `⌈L/N⌉` if `i < L mod N`
and `⌊L/N⌋` otherwise, and its `j`-th element is `F[j*N + i]`; the `k`-th value
of `F` is element `k / N` of shard `k mod N`, the shards together are a
permutation of `F`, and reading them in round-robin order gives back `F`. -/
theorem create_vectors_partition (files : List (List Int)) (N : Nat) (hN : 1 ≤ N)
    (hf : files ≠ []) :
    ∃ shards, create_vectors files [] N = .ok ([], shards) ∧ shards.length = N ∧
      (∀ i, i < N → ∃ shard, shards[i]? = some shard ∧
        shard.length = (if i < files.flatten.length % N
          then (files.flatten.length + N - 1) / N else files.flatten.length / N) ∧
        ∀ j, j < shard.length →
          j * N + i < files.flatten.length ∧ shard[j]? = files.flatten[j * N + i]?) ∧
      (∀ k, k < files.flatten.length →
        ∃ shard, shards[k % N]? = some shard ∧ shard[k / N]? = files.flatten[k]?) ∧
      shards.flatten.Perm files.flatten ∧
      (List.range files.flatten.length).map
        (fun k => (shards.getD (k % N) []).getD (k / N) 0) = files.flatten := by
  obtain ⟨shards, e, hd⟩ := create_vectors_dealt files N hN hf
  have hk : ∀ k, k < files.flatten.length →
      ∃ shard, shards[k % N]? = some shard ∧ shard[k / N]? = files.flatten[k]? := by
    intro k hk
    obtain ⟨sh, t1, t2, t3⟩ := hd.2.2 (k % N) (Nat.mod_lt _ hN)
    have hj : k / N < sh.length := by
      rw [t2]
      have a1 := Nat.div_add_mod k N
      have a2 := Nat.div_add_mod files.flatten.length N
      have a3 : k / N ≤ files.flatten.length / N := Nat.div_le_div_right (le_of_lt hk)
      rcases Nat.lt_or_ge (k / N) (files.flatten.length / N) with h | h
      · omega
      · have h4 : k / N = files.flatten.length / N := le_antisymm a3 h
        rw [h4] at a1
        rw [if_pos (by omega)]
        omega
    obtain ⟨_, b2⟩ := t3 _ hj
    rw [Nat.div_add_mod' k N] at b2
    exact ⟨sh, t1, b2⟩
  refine ⟨shards, e, hd.1, ?_, hk, hd.2.1, ?_⟩
  · intro i hi
    obtain ⟨sh, t1, t2, t3⟩ := hd.2.2 i hi
    refine ⟨sh, t1, ?_, t3⟩
    rw [t2]
    by_cases c : i < files.flatten.length % N
    · rw [if_pos c, if_pos c, ceil_div_eq N _ hN (by omega)]
    · rw [if_neg c, if_neg c, Nat.add_zero]
  · apply List.ext_getElem
    · simp
    · intro k h1 h2
      obtain ⟨sh, t1, t2⟩ := hk k h2
      simp only [List.getElem_map, List.getElem_range, List.getD_eq_getElem?_getD, t1,
        Option.getD_some, t2, List.getElem?_eq_getElem h2]

/-- C8 on the fifth seed scenario: files `4, 3` and `2, 1`, two shards. -/
theorem create_vectors_partition_witness :
    1 ≤ 2 ∧ [[(4 : Int), 3], [2, 1]] ≠ [] ∧
    ∃ shards, create_vectors [[4, 3], [2, 1]] [] 2 = .ok ([], shards) ∧ shards.length = 2 ∧
      (∀ i, i < 2 → ∃ shard, shards[i]? = some shard ∧
        shard.length = (if i < [[(4 : Int), 3], [2, 1]].flatten.length % 2
          then ([[(4 : Int), 3], [2, 1]].flatten.length + 2 - 1) / 2
          else [[(4 : Int), 3], [2, 1]].flatten.length / 2) ∧
        ∀ j, j < shard.length →
          j * 2 + i < [[(4 : Int), 3], [2, 1]].flatten.length ∧
          shard[j]? = [[(4 : Int), 3], [2, 1]].flatten[j * 2 + i]?) ∧
      (∀ k, k < [[(4 : Int), 3], [2, 1]].flatten.length →
        ∃ shard, shards[k % 2]? = some shard ∧
          shard[k / 2]? = [[(4 : Int), 3], [2, 1]].flatten[k]?) ∧
      shards.flatten.Perm [[(4 : Int), 3], [2, 1]].flatten ∧
      (List.range [[(4 : Int), 3], [2, 1]].flatten.length).map
        (fun k => (shards.getD (k % 2) []).getD (k / 2) 0)
          = [[(4 : Int), 3], [2, 1]].flatten :=
  ⟨by decide, by decide,
    create_vectors_partition [[4, 3], [2, 1]] 2 (by decide) (by decide)⟩

/-- C8 fails as stated: with no file at all (the flat sequence is empty) and
`N = 2`, `create_vectors` returns at its guard, before any shard is created,
and produces no shard instead of two. -/
theorem create_vectors_partition_counterexample :
    create_vectors [] [] 2 = .ok ([Out.text NO_FILES_MSG], []) ∧
    ¬ ∃ out shards, create_vectors [] [] 2 = .ok (out, shards) ∧ shards.length = 2 := by
  have h : create_vectors [] [] 2 = .ok ([Out.text NO_FILES_MSG], []) := by
    simp [create_vectors]
  refine ⟨h, ?_⟩
  rw [h]
  rintro ⟨out, shards, e, hl⟩
  cases e
  simp at hl

/-- C9 (as amended): run without file paths, the serial path (`N ≤ 1`, that is
`N = 0` or `N = 1`) writes the notice `No valid file names entered` to standard
output and no value, and in the parallel path `create_vectors` writes the same
notice and hands on the shard vector unchanged, with no shard in it. -/
theorem no_files_output (use_threads : Bool) (N : Nat) :
    mysort use_threads 0 [] = .ok [Out.text NO_FILES_MSG] ∧
    mysort use_threads 1 [] = .ok [Out.text NO_FILES_MSG] ∧
    exec_normal_sort [] = .ok [Out.text NO_FILES_MSG] ∧
    create_vectors [] [] N = .ok ([Out.text NO_FILES_MSG], []) := by
  simp [mysort, exec_normal_sort, create_vectors]

/-- C9 fails as stated: without file paths the serial path does write to
standard output, `create_vectors` hands the coordinator no shard rather than
`N` empty ones, and the coordinator then indexes shard `0`, which does not
exist. -/
theorem no_files_output_counterexample :
    mysort false 1 [] ≠ .ok [] ∧
    (¬ ∃ out, create_vectors [] [] 2 = .ok (out, [[], []])) ∧
    exec_process_sort 2 [] = .error .out_of_bounds ∧
    exec_thread_sort 2 [] = .error .out_of_bounds ∧
    mysort false 2 [] = .error .out_of_bounds ∧
    mysort true 2 [] = .error .out_of_bounds := by
  have hp : exec_process_sort 2 [] = .error .out_of_bounds := by
    rw [exec_process_sort, process_spawn]
    simp
  have hc : create_vectors [] [] 2 = .ok ([Out.text NO_FILES_MSG], []) := by
    simp [create_vectors]
  refine ⟨?_, ?_, hp, by rw [exec_thread_sort_eq]; exact hp, ?_, ?_⟩
  · simp [mysort, exec_normal_sort]
  · rw [hc]
    rintro ⟨out, e⟩
    cases e
  · simp [mysort, hc, hp]
  · simp [mysort, hc, exec_thread_sort_eq, hp]

